import Mathlib

/-!
Finality gadget: Babylon client and server lifecycle.

A shallow embedding of `bbnclient/bbnclient.go` and `server/server.go`.

* `uint64` and `uint32` values are natural numbers; every Go addition or
  conversion that can wrap is written with an explicit `%`.
* A Go function returning `(T, error)` returns the pair `T × Option Error`.
* `Call` separates a call that returns from one that aborts on a nil pointer.
* Loops of the form `for { ... }` take a fuel argument that bounds the number
  of iterations; `none` means the fuel ran out before the loop was left.
* The gateway is a snapshot: it gives the same answer to the same request
  for the length of one call.
-/

namespace FinalityGadget

/-! ## Machine integers -/

/-- Number of `uint64` values; `uint64` addition wraps modulo this. -/
def uint64Size : Nat := 18446744073709551616

/-- Number of `uint32` values; the conversion `uint32(n)` reduces modulo this. -/
def uint32Size : Nat := 4294967296

/-- Go constant `math.MaxUint64`. -/
def MaxUint64 : Nat := 18446744073709551615

/-- Go `a + b` on `uint64`. -/
def addU64 (a b : Nat) : Nat := (a + b) % uint64Size

/-- Go conversion `uint32(n)` of a non-negative `int`. -/
def toUint32 (n : Nat) : Nat := n % uint32Size

/-! ## Results of calls -/

/-- Go `error` values. -/
abbrev Error := String

/-- Outcome of a call: it returns `a`, or it aborts with a nil pointer
dereference (a Go runtime panic). -/
inductive Call (α : Type) where
  | ret (a : α)
  | nilDeref
  deriving DecidableEq, Repr

/-- Control flow of a loop body that may leave the enclosing function. -/
inductive Flow (ρ α : Type) where
  | next (acc : α)
  | ret (r : ρ)
  | nilDeref
  deriving DecidableEq, Repr

/-! ## Data model (the fields the client reads) -/

/-- Unbonding sub-record of a delegation (`BTCUndelegationResponse`). -/
structure BTCUndelegationResponse where
  DelegatorUnbondingSigHex : String
  CovenantUnbondingSigList : List String
  CovenantSlashingSigs : List String
  deriving DecidableEq, Repr

/-- One staking commitment (`BTCDelegationResponse`); `UndelegationResponse`
is a pointer in Go, `none` is the nil pointer. -/
structure BTCDelegationResponse where
  StartHeight : Nat
  EndHeight : Nat
  TotalSat : Nat
  CovenantSigs : List String
  UndelegationResponse : Option BTCUndelegationResponse
  deriving DecidableEq, Repr

/-- Delegations of one delegator (`BTCDelegatorDelegationsResponse`). -/
structure BTCDelegatorDelegationsResponse where
  Dels : List BTCDelegationResponse
  deriving DecidableEq, Repr

/-- Cosmos SDK `PageRequest`; `Key = none` is the nil key. -/
structure PageRequest where
  Key : Option (List Nat)
  Limit : Nat
  deriving DecidableEq, Repr

/-- Cosmos SDK `PageResponse`; `NextKey = none` is the nil key. -/
structure PageResponse where
  NextKey : Option (List Nat)
  deriving DecidableEq, Repr

/-- One page of delegations (`QueryFinalityProviderDelegationsResponse`);
`Pagination` is a pointer in Go. -/
structure DelegationsPage where
  BtcDelegatorDelegations : List BTCDelegatorDelegationsResponse
  Pagination : Option PageResponse
  deriving DecidableEq, Repr

/-- Parameters of the BTC checkpoint module. -/
structure CheckpointParams where
  BtcConfirmationDepth : Nat
  CheckpointFinalizationTimeout : Nat
  deriving DecidableEq, Repr

/-- Parameters of the BTC staking module. -/
structure StakingParams where
  CovenantQuorum : Nat
  deriving DecidableEq, Repr

/-- A finality provider as listed by the consumer query; `BtcPk` in hex. -/
structure FinalityProviderResponse where
  BtcPk : String
  deriving DecidableEq, Repr

/-- The chain query gateway (`query.QueryClient`): the answer it gives to
each request the client makes. -/
structure QueryClient where
  FinalityProviderDelegations : String → PageRequest → Except Error DelegationsPage
  BTCCheckpointParams : Except Error CheckpointParams
  BTCStakingParams : Except Error StakingParams
  BTCHeaderChainTip : Except Error Nat
  QueryConsumerFinalityProviders :
    String → PageRequest → Except Error (List FinalityProviderResponse)

/-- A `*zap.Logger`. -/
structure Logger where
  name : String
  deriving DecidableEq, Repr

/-- Go struct `BabylonClient`; `logger = none` is the nil pointer. -/
structure BabylonClient where
  queryClient : QueryClient
  logger : Option Logger

/-! ## Activity predicate -/

/-- Generated getter `GetDelegatorUnbondingSigHex`: nil-safe, the empty
string on a nil receiver. -/
def GetDelegatorUnbondingSigHex (ud : Option BTCUndelegationResponse) : String :=
  match ud with
  | some u => u.DelegatorUnbondingSigHex
  | none => ""

/-- Go `isDelegationActive` (bbnclient.go, lines 255-302). The covenant
signature count is converted to `uint32` (line 291); the two counts of the
unbonding sub-record are compared as `int`, 64 bits wide, against
`int(covQuorum)` (lines 294, 297), which loses nothing. Reading a field of a
nil `ud` is a nil dereference. -/
def isDelegationActive (bbnClient : BabylonClient) (btcDel : BTCDelegationResponse)
    (btcHeight : Nat) : Call (Bool × Option Error) :=
  match bbnClient.queryClient.BTCCheckpointParams with
  | .error err => .ret (false, some err)
  | .ok btccheckpointParams =>
    match bbnClient.queryClient.BTCStakingParams with
    | .error err => .ret (false, some err)
    | .ok btcstakingParams =>
      let kValue := btccheckpointParams.BtcConfirmationDepth
      let wValue := btccheckpointParams.CheckpointFinalizationTimeout
      let covQuorum := btcstakingParams.CovenantQuorum
      let ud := btcDel.UndelegationResponse
      if (GetDelegatorUnbondingSigHex ud).length > 0 then .ret (false, none)
      else if btcHeight < addU64 btcDel.StartHeight kValue
          ∨ addU64 btcHeight wValue > btcDel.EndHeight then .ret (false, none)
      else if toUint32 btcDel.CovenantSigs.length < covQuorum then .ret (false, none)
      else
        match ud with
        | none => .nilDeref
        | some u =>
          if u.CovenantUnbondingSigList.length < covQuorum then .ret (false, none)
          else if u.CovenantSlashingSigs.length < covQuorum then .ret (false, none)
          else .ret (true, none)

/-- Go `getDelFirstActiveHeight` (bbnclient.go, lines 311-318). -/
def getDelFirstActiveHeight (btcDel : BTCDelegationResponse)
    (latestBtcHeight kValue covQuorum : Nat) : Nat :=
  let activationHeight := addU64 btcDel.StartHeight kValue
  if latestBtcHeight < activationHeight ∨ toUint32 btcDel.CovenantSigs.length < covQuorum then
    MaxUint64
  else
    activationHeight

/-! ## Scenario of the specification -/

/-- A gateway with one provider page and fixed parameters. -/
def gatewayOf (page : DelegationsPage) (k w q : Nat) : QueryClient where
  FinalityProviderDelegations := fun _ _ => .ok page
  BTCCheckpointParams := .ok ⟨k, w⟩
  BTCStakingParams := .ok ⟨q⟩
  BTCHeaderChainTip := .ok 150
  QueryConsumerFinalityProviders := fun _ _ => .ok []

/-- Delegation of the concrete scenario: start 100, end 200, 50 sat, two
signatures of each kind, no unbonding signature. -/
def scenarioDel : BTCDelegationResponse where
  StartHeight := 100
  EndHeight := 200
  TotalSat := 50
  CovenantSigs := ["c1", "c2"]
  UndelegationResponse := some ⟨"", ["u1", "u2"], ["s1", "s2"]⟩

/-- Client of the concrete scenario: `k = 10`, `w = 5`, `Q = 2`. -/
def scenarioClient : BabylonClient where
  queryClient := gatewayOf ⟨[⟨[scenarioDel]⟩], none⟩ 10 5 2
  logger := none

/-! ## Voting power -/

/-- Inner loop of `QueryFpPower` (lines 143-152): the delegations of one
delegator, with the running `totalPower`. -/
def powerDelsLoop (bbnClient : BabylonClient) (btcHeight : Nat) :
    List BTCDelegationResponse → Nat → Flow (Nat × Option Error) Nat
  | [], totalPower => .next totalPower
  | btcDel :: rest, totalPower =>
    match isDelegationActive bbnClient btcDel btcHeight with
    | .nilDeref => .nilDeref
    | .ret (_, some err) => .ret (0, some err)
    | .ret (isActive, none) =>
      if isActive then powerDelsLoop bbnClient btcHeight rest (addU64 totalPower btcDel.TotalSat)
      else powerDelsLoop bbnClient btcHeight rest totalPower

/-- Middle loop of `QueryFpPower` (line 142): the delegators of one page. -/
def powerPageLoop (bbnClient : BabylonClient) (btcHeight : Nat) :
    List BTCDelegatorDelegationsResponse → Nat → Flow (Nat × Option Error) Nat
  | [], totalPower => .next totalPower
  | btcDels :: rest, totalPower =>
    match powerDelsLoop bbnClient btcHeight btcDels.Dels totalPower with
    | .nilDeref => .nilDeref
    | .ret r => .ret r
    | .next totalPower1 => powerPageLoop bbnClient btcHeight rest totalPower1

/-- Outer `for` of `QueryFpPower` (lines 140-158). The response `resp` is the
one fetched before the loop: the body assigns `pagination.Key` and issues no
further request. -/
def fpPowerLoop (bbnClient : BabylonClient) (resp : DelegationsPage) (btcHeight : Nat) :
    Nat → PageRequest → Nat → Option (Call (Nat × Option Error))
  | 0, _, _ => none
  | fuel + 1, pagination, totalPower =>
    match powerPageLoop bbnClient btcHeight resp.BtcDelegatorDelegations totalPower with
    | .nilDeref => some .nilDeref
    | .ret r => some (.ret r)
    | .next totalPower1 =>
      match resp.Pagination with
      | none => some (.ret (totalPower1, none))
      | some pageRes =>
        match pageRes.NextKey with
        | none => some (.ret (totalPower1, none))
        | some nextKey =>
          fpPowerLoop bbnClient resp btcHeight fuel { pagination with Key := some nextKey }
            totalPower1

/-- Go `QueryFpPower` (lines 132-161). -/
def QueryFpPower (bbnClient : BabylonClient) (fpPubkeyHex : String) (btcHeight : Nat)
    (fuel : Nat) : Option (Call (Nat × Option Error)) :=
  let pagination : PageRequest := { Key := none, Limit := 0 }
  match bbnClient.queryClient.FinalityProviderDelegations fpPubkeyHex pagination with
  | .error err => some (.ret (0, some err))
  | .ok resp => fpPowerLoop bbnClient resp btcHeight fuel pagination 0

/-- Go `map[string]uint64` as an association list read with `List.lookup`. -/
abbrev PowerMap := List (String × Nat)

/-- Go `m[k] = v`. -/
def PowerMap.set (m : PowerMap) (k : String) (v : Nat) : PowerMap :=
  (k, v) :: m.filter (fun e => e.1 != k)

/-- Loop of `QueryMultiFpPower` (lines 169-175); a nil map is `none`. -/
def multiFpPowerLoop (bbnClient : BabylonClient) (btcHeight fuel : Nat) :
    List String → PowerMap → Option (Call (Option PowerMap × Option Error))
  | [], fpPowerMap => some (.ret (some fpPowerMap, none))
  | fpPubkeyHex :: rest, fpPowerMap =>
    match QueryFpPower bbnClient fpPubkeyHex btcHeight fuel with
    | none => none
    | some .nilDeref => some .nilDeref
    | some (.ret (_, some err)) => some (.ret (none, some err))
    | some (.ret (fpPower, none)) =>
      multiFpPowerLoop bbnClient btcHeight fuel rest (fpPowerMap.set fpPubkeyHex fpPower)

/-- Go `QueryMultiFpPower` (lines 163-178). -/
def QueryMultiFpPower (bbnClient : BabylonClient) (fpPubkeyHexList : List String)
    (btcHeight fuel : Nat) : Option (Call (Option PowerMap × Option Error)) :=
  multiFpPowerLoop bbnClient btcHeight fuel fpPubkeyHexList []

/-! ## Earliest activation height -/

/-- Inner loop of `QueryFpEarliestActiveDelBtcHeight` (lines 234-239). -/
def earliestDelsLoop (latestBtcHeight kValue covQuorum : Nat) :
    List BTCDelegationResponse → Nat → Nat
  | [], earliestBtcHeight => earliestBtcHeight
  | btcDel :: rest, earliestBtcHeight =>
    let activationHeight := getDelFirstActiveHeight btcDel latestBtcHeight kValue covQuorum
    if activationHeight < earliestBtcHeight then
      earliestDelsLoop latestBtcHeight kValue covQuorum rest activationHeight
    else
      earliestDelsLoop latestBtcHeight kValue covQuorum rest earliestBtcHeight

/-- Middle loop of `QueryFpEarliestActiveDelBtcHeight` (line 233). -/
def earliestPageLoop (latestBtcHeight kValue covQuorum : Nat) :
    List BTCDelegatorDelegationsResponse → Nat → Nat
  | [], earliestBtcHeight => earliestBtcHeight
  | btcDels :: rest, earliestBtcHeight =>
    earliestPageLoop latestBtcHeight kValue covQuorum rest
      (earliestDelsLoop latestBtcHeight kValue covQuorum btcDels.Dels earliestBtcHeight)

/-- Outer `for` of `QueryFpEarliestActiveDelBtcHeight` (lines 231-245); as in
`fpPowerLoop` the body issues no further request. -/
def fpEarliestLoop (resp : DelegationsPage) (latestBtcHeight kValue covQuorum : Nat) :
    Nat → PageRequest → Nat → Option (Nat × Option Error)
  | 0, _, _ => none
  | fuel + 1, pagination, earliestBtcHeight =>
    let earliest1 := earliestPageLoop latestBtcHeight kValue covQuorum
      resp.BtcDelegatorDelegations earliestBtcHeight
    match resp.Pagination with
    | none => some (earliest1, none)
    | some pageRes =>
      match pageRes.NextKey with
      | none => some (earliest1, none)
      | some nextKey =>
        fpEarliestLoop resp latestBtcHeight kValue covQuorum fuel
          { pagination with Key := some nextKey } earliest1

/-- Go `QueryFpEarliestActiveDelBtcHeight` (lines 197-247). -/
def QueryFpEarliestActiveDelBtcHeight (bbnClient : BabylonClient) (fpPubkeyHex : String)
    (fuel : Nat) : Option (Nat × Option Error) :=
  let pagination : PageRequest := { Key := none, Limit := 100 }
  match bbnClient.queryClient.FinalityProviderDelegations fpPubkeyHex pagination with
  | .error err => some (MaxUint64, some err)
  | .ok resp =>
    match bbnClient.queryClient.BTCCheckpointParams with
    | .error err => some (MaxUint64, some err)
    | .ok btccheckpointParams =>
      match bbnClient.queryClient.BTCStakingParams with
      | .error err => some (MaxUint64, some err)
      | .ok btcstakingParams =>
        match bbnClient.queryClient.BTCHeaderChainTip with
        | .error err => some (MaxUint64, some err)
        | .ok latestBtcHeight =>
          let kValue := btccheckpointParams.BtcConfirmationDepth
          let covQuorum := btcstakingParams.CovenantQuorum
          fpEarliestLoop resp latestBtcHeight kValue covQuorum fuel pagination MaxUint64

/-- Loop of `QueryEarliestActiveDelBtcHeight` (lines 184-192). -/
def earliestAllLoop (bbnClient : BabylonClient) (fuel : Nat) :
    List String → Nat → Option (Nat × Option Error)
  | [], allFpEarliestDelBtcHeight => some (allFpEarliestDelBtcHeight, none)
  | fpPkHex :: rest, allFpEarliestDelBtcHeight =>
    match QueryFpEarliestActiveDelBtcHeight bbnClient fpPkHex fuel with
    | none => none
    | some (_, some err) => some (MaxUint64, some err)
    | some (fpEarliestDelBtcHeight, none) =>
      if fpEarliestDelBtcHeight < allFpEarliestDelBtcHeight then
        earliestAllLoop bbnClient fuel rest fpEarliestDelBtcHeight
      else
        earliestAllLoop bbnClient fuel rest allFpEarliestDelBtcHeight

/-- Go `QueryEarliestActiveDelBtcHeight` (lines 181-195). -/
def QueryEarliestActiveDelBtcHeight (bbnClient : BabylonClient) (fpPkHexList : List String)
    (fuel : Nat) : Option (Nat × Option Error) :=
  earliestAllLoop bbnClient fuel fpPkHexList MaxUint64

/-! ## Constructor and logger -/

/-- Go struct `cfg.BBNConfig` (the fields the constructor reads). -/
structure BBNConfig where
  BabylonRPCAddress : String
  BabylonChainId : String
  deriving DecidableEq, Repr

/-- Go struct `bbncfg.BabylonConfig` (the fields the constructor writes). -/
structure BabylonConfig where
  RPCAddr : String
  ChainID : String
  deriving DecidableEq, Repr

/-- The Babylon library client returned by `bbnClient.New`. -/
structure LibClient where
  QueryClient : QueryClient

/-- Go `NewBabylonClient` (lines 26-41). The library functions
`bbncfg.DefaultBabylonConfig` and `bbnClient.New` are parameters. The struct
literal of line 38 sets `queryClient` only, so `logger` has its zero value. -/
def NewBabylonClient (DefaultBabylonConfig : BabylonConfig)
    (New : BabylonConfig → Option Logger → Except Error LibClient)
    (cfg : BBNConfig) (logger : Option Logger) : Option BabylonClient × Option Error :=
  let bbnConfig : BabylonConfig :=
    { DefaultBabylonConfig with RPCAddr := cfg.BabylonRPCAddress, ChainID := cfg.BabylonChainId }
  match New bbnConfig logger with
  | .error err => (none, some err)
  | .ok babylonClient => (some { queryClient := babylonClient.QueryClient, logger := none }, none)

/-- Go `QueryAllFinalityProviders` (lines 47-62). `Info` on a nil
`*zap.Logger` reads a field of the receiver, which is a nil dereference. -/
def QueryAllFinalityProviders (bbnClient : BabylonClient) (consumerId : String) :
    Call (List FinalityProviderResponse × Option Error) :=
  match bbnClient.logger with
  | none => .nilDeref
  | some _ =>
    let pagination : PageRequest := { Key := none, Limit := 0 }
    match bbnClient.queryClient.QueryConsumerFinalityProviders consumerId pagination with
    | .error err => .ret ([], some err)
    | .ok resp => .ret (resp, none)

/-! ## Server lifecycle -/

/-- Go `atomic.AddInt32`: two's complement addition on `int32`, values in
`[-2^31, 2^31)`. -/
def addInt32 (x delta : Int) : Int := (x + delta + 2147483648) % 4294967296 - 2147483648

/-- What the calling goroutine of `RunUntilShutdown` does to the outside. -/
inductive Event where
  | log (msg : String)
  | dbClose (err : Option Error)
  | listen (addr : String) (err : Option Error)
  | lisClose (err : Option Error)
  | grpcNewServer
  | grpcStop
  | register (err : Option Error)
  | serve
  | shutdownReceived
  deriving DecidableEq, Repr

/-- Outcomes the environment gives to the calls of `RunUntilShutdown`:
errors of `net.Listen`, of `RegisterWithGrpcServer`, of the two `Close`
calls, and whether the shutdown channel ever delivers. -/
structure Env where
  listenErr : Option Error
  registerErr : Option Error
  lisCloseErr : Option Error
  dbCloseErr : Option Error
  shutdown : Bool
  deriving DecidableEq, Repr

/-- Go struct `Server` (the fields `RunUntilShutdown` reads or writes);
`started` is an `int32`. The pointer fields `rpcServer`, `cfg`, `db`,
`logger` are taken to be set, as `NewFinalityGadgetServer` is called by the
daemon. -/
structure Server where
  GRPCListener : String
  started : Int
  deriving DecidableEq, Repr

/-- Go `NewFinalityGadgetServer` (lines 33-41): `started` has its zero value. -/
def NewFinalityGadgetServer (GRPCListener : String) : Server :=
  { GRPCListener := GRPCListener, started := 0 }

/-- A function registered with `defer`. -/
inductive Deferred where
  | closeDatabase
  | closeListener
  | stopGrpc
  deriving DecidableEq, Repr

/-- Running the deferred functions at return: the list is the defer stack,
most recently deferred first. The results of both `Close` calls are dropped. -/
def runDeferred (env : Env) : List Deferred → List Event
  | [] => []
  | .closeDatabase :: rest =>
    [.log "Closing database...", .dbClose env.dbCloseErr, .log "Database closed"]
      ++ runDeferred env rest
  | .closeListener :: rest => .lisClose env.lisCloseErr :: runDeferred env rest
  | .stopGrpc :: rest => .grpcStop :: runDeferred env rest

/-- Result of one call of `RunUntilShutdown`: the server afterwards, the
returned error (`none` when the call never returns), and the events. -/
structure RunResult where
  server : Server
  returned : Option (Option Error)
  trace : List Event
  deriving DecidableEq, Repr

/-- Go `startGrpcListen` (lines 86-109) as seen by the caller: the serving
goroutine is launched and nil is returned. -/
def startGrpcListen : List Event × Option Error := ([.serve], none)

/-- Go `RunUntilShutdown` (lines 45-83). -/
def RunUntilShutdown (s : Server) (env : Env) : RunResult :=
  let started1 := addInt32 s.started 1
  let s1 : Server := { s with started := started1 }
  if started1 ≠ 1 then
    { server := s1, returned := some none, trace := [] }
  else
    let defers0 : List Deferred := [.closeDatabase]
    match env.listenErr with
    | some err =>
      { server := s1
        returned := some (some ("failed to listen on " ++ s.GRPCListener ++ ": " ++ err))
        trace := [.listen s.GRPCListener (some err)] ++ runDeferred env defers0 }
    | none =>
      let defers1 := Deferred.closeListener :: defers0
      let defers2 := Deferred.stopGrpc :: defers1
      let opened : List Event := [.listen s.GRPCListener none, .grpcNewServer]
      match env.registerErr with
      | some err =>
        { server := s1
          returned := some (some ("failed to register gRPC server: " ++ err))
          trace := opened ++ [.register (some err)] ++ runDeferred env defers2 }
      | none =>
        match startGrpcListen with
        | (evs, some err) =>
          { server := s1
            returned := some (some ("failed to start gRPC listener: " ++ err))
            trace := opened ++ [.register none] ++ evs ++ runDeferred env defers2 }
        | (evs, none) =>
          let running := opened ++ [.register none] ++ evs ++ [.log "Finality gadget is active"]
          if env.shutdown then
            { server := s1
              returned := some none
              trace := running ++ [.shutdownReceived] ++ runDeferred env defers2 }
          else
            { server := s1, returned := none, trace := running }

/-- The server after a sequence of calls of `RunUntilShutdown`, one per
environment of the list. -/
def afterCalls (envs : List Env) (s : Server) : Server :=
  envs.foldl (fun acc env => (RunUntilShutdown acc env).server) s

/-- The teardown events of a trace, in order. -/
def teardown (trace : List Event) : List Event :=
  trace.filter fun e =>
    match e with
    | .grpcStop => true
    | .lisClose _ => true
    | .dbClose _ => true
    | _ => false

/-- The events that acquire or serve a resource. -/
def startup (trace : List Event) : List Event :=
  trace.filter fun e =>
    match e with
    | .listen _ _ => true
    | .grpcNewServer => true
    | .serve => true
    | _ => false

/-! ## Paginated gateway used as a concrete input -/

/-- Second delegation: start 90, end 200, 30 sat, two signatures of each kind. -/
def secondDel : BTCDelegationResponse where
  StartHeight := 90
  EndHeight := 200
  TotalSat := 30
  CovenantSigs := ["c1", "c2"]
  UndelegationResponse := some ⟨"", ["u1", "u2"], ["s1", "s2"]⟩

/-- First page: `scenarioDel`, with a continuation cursor. -/
def pageOne : DelegationsPage := ⟨[⟨[scenarioDel]⟩], some ⟨some [1]⟩⟩

/-- Last page: `secondDel`, no continuation cursor. -/
def pageTwo : DelegationsPage := ⟨[⟨[secondDel]⟩], some ⟨none⟩⟩

/-- A gateway that serves the delegations in two pages: `pageOne` for a
request without key, `pageTwo` for the cursor of `pageOne`. Parameters
`k = 10`, `w = 5`, `Q = 2`, Bitcoin tip 150. -/
def twoPageClient : BabylonClient where
  queryClient :=
    { FinalityProviderDelegations := fun _ req =>
        if req.Key = some [1] then .ok pageTwo else .ok pageOne
      BTCCheckpointParams := .ok ⟨10, 5⟩
      BTCStakingParams := .ok ⟨2⟩
      BTCHeaderChainTip := .ok 150
      QueryConsumerFinalityProviders := fun _ _ => .ok [] }
  logger := none

/-- The same delegations served as one single page. -/
def onePageClient : BabylonClient where
  queryClient := gatewayOf ⟨[⟨[scenarioDel]⟩, ⟨[secondDel]⟩], none⟩ 10 5 2
  logger := none

/-- Spec 4.1 `ActiveDelegationPower`, written from the spec's words: sum the
active delegations of a page, request the next page with the continuation
cursor, stop when no cursor is returned. -/
def specPowerLoop (bbnClient : BabylonClient) (fpPubkeyHex : String) (btcHeight : Nat) :
    Nat → PageRequest → Nat → Option (Call (Nat × Option Error))
  | 0, _, _ => none
  | fuel + 1, pagination, totalPower =>
    match bbnClient.queryClient.FinalityProviderDelegations fpPubkeyHex pagination with
    | .error err => some (.ret (0, some err))
    | .ok resp =>
      match powerPageLoop bbnClient btcHeight resp.BtcDelegatorDelegations totalPower with
      | .nilDeref => some .nilDeref
      | .ret r => some (.ret r)
      | .next totalPower1 =>
        match resp.Pagination with
        | none => some (.ret (totalPower1, none))
        | some pageRes =>
          match pageRes.NextKey with
          | none => some (.ret (totalPower1, none))
          | some nextKey =>
            specPowerLoop bbnClient fpPubkeyHex btcHeight fuel
              { pagination with Key := some nextKey } totalPower1

/-- Spec 4.1 `ActiveDelegationPower` from an empty cursor. -/
def specActiveDelegationPower (bbnClient : BabylonClient) (fpPubkeyHex : String)
    (btcHeight fuel : Nat) : Option (Call (Nat × Option Error)) :=
  specPowerLoop bbnClient fpPubkeyHex btcHeight fuel { Key := none, Limit := 0 } 0

/-- A gateway with three providers: `a` holds `scenarioDel`, `b` holds
`secondDel`, and the delegation query for `bad` fails. -/
def mixedClient : BabylonClient where
  queryClient :=
    { FinalityProviderDelegations := fun fp _ =>
        if fp = "bad" then .error "unavailable"
        else if fp = "b" then .ok ⟨[⟨[secondDel]⟩], none⟩
        else .ok ⟨[⟨[scenarioDel]⟩], none⟩
      BTCCheckpointParams := .ok ⟨10, 5⟩
      BTCStakingParams := .ok ⟨2⟩
      BTCHeaderChainTip := .ok 150
      QueryConsumerFinalityProviders := fun _ _ => .ok [] }
  logger := none

/-! ## Reference values for one page -/

/-- The delegations of a page, in the order the loops visit them. -/
def pageDels : List BTCDelegatorDelegationsResponse → List BTCDelegationResponse
  | [] => []
  | btcDels :: rest => btcDels.Dels ++ pageDels rest

/-- A page without continuation cursor: the test of lines 154 and 241. -/
def noCursor (resp : DelegationsPage) : Prop :=
  resp.Pagination = none ∨ resp.Pagination = some ⟨none⟩

/-- Sum of `TotalSat` over the delegations of a list that
`isDelegationActive` reports active at height `H`, as a natural number. -/
def activeSat (bbnClient : BabylonClient) (H : Nat) (dels : List BTCDelegationResponse) : Nat :=
  ((dels.filter fun d => isDelegationActive bbnClient d H = .ret (true, none)).map
    fun d => d.TotalSat).sum

/-- Minimum of `getDelFirstActiveHeight` over a list of delegations, starting
from `init`. -/
def minFirstActive (T k Q : Nat) (dels : List BTCDelegationResponse) (init : Nat) : Nat :=
  (dels.map fun d => getDelFirstActiveHeight d T k Q).foldl min init

/-- The delegations of every provider of a list, given the page of each. -/
def providersDels (pageOf : String → DelegationsPage) : List String → List BTCDelegationResponse
  | [] => []
  | fp :: rest => pageDels (pageOf fp).BtcDelegatorDelegations ++ providersDels pageOf rest

/-! ## Further concrete inputs -/

/-- The scenario delegation without an unbonding sub-record (nil pointer). -/
def nilUdDel : BTCDelegationResponse := { scenarioDel with UndelegationResponse := none }

/-- The scenario client, its provider page holding `nilUdDel`. -/
def nilUdClient : BabylonClient where
  queryClient := gatewayOf ⟨[⟨[nilUdDel]⟩], none⟩ 10 5 2
  logger := none

/-- A delegation whose timelock has run out by height 150: start 10, end
120, 40 sat, two signatures of each kind. -/
def expiredDel : BTCDelegationResponse where
  StartHeight := 10
  EndHeight := 120
  TotalSat := 40
  CovenantSigs := ["c1", "c2"]
  UndelegationResponse := some ⟨"", ["u1", "u2"], ["s1", "s2"]⟩

/-- A provider page with two delegators: one holds `expiredDel`, the other
`scenarioDel` and `secondDel`; `k = 10`, `w = 5`, `Q = 2`. -/
def expiredClient : BabylonClient where
  queryClient := gatewayOf ⟨[⟨[expiredDel]⟩, ⟨[scenarioDel, secondDel]⟩], none⟩ 10 5 2
  logger := none

/-- A delegation whose start height is the largest `uint64`. -/
def wrapDel : BTCDelegationResponse := { scenarioDel with StartHeight := 18446744073709551615 }

/-- A logger handed to the constructor. -/
def gadgetLogger : Logger := ⟨"finality-gadget"⟩

/-- A library constructor `bbnClient.New` that succeeds. -/
def libNewOk (_ : BabylonConfig) (_ : Option Logger) : Except Error LibClient :=
  .ok ⟨gatewayOf ⟨[], none⟩ 10 5 2⟩

/-- An environment in which every call succeeds and shutdown is signalled. -/
def quietEnv : Env := ⟨none, none, none, none, true⟩

/-- An environment in which `net.Listen` fails and closing the database
reports an error. -/
def bindFailEnv : Env := ⟨some "address already in use", none, none, some "db busy", true⟩

/-- An environment in which registration fails and closing the listener
reports an error. -/
def registerFailEnv : Env := ⟨none, some "duplicate service", some "use of closed conn", none, true⟩

/-- An environment in which both `Close` calls report an error at shutdown. -/
def closeErrEnv : Env := ⟨none, none, some "use of closed conn", some "db busy", true⟩

/-! ## Lemmas on machine integers and strings -/

theorem addU64_of_lt {a b : Nat} (h : a + b < uint64Size) : addU64 a b = a + b := by
  unfold addU64
  exact Nat.mod_eq_of_lt h

theorem addU64_le (a b : Nat) : addU64 a b ≤ a + b := by
  unfold addU64
  exact Nat.mod_le _ _

theorem toUint32_of_lt {n : Nat} (h : n < uint32Size) : toUint32 n = n := by
  unfold toUint32
  exact Nat.mod_eq_of_lt h

theorem string_length_pos_iff (s : String) : s.length > 0 ↔ s ≠ "" := by
  constructor
  · intro h hs
    subst hs
    exact absurd h (by decide)
  · intro h
    rcases s with ⟨cs⟩
    cases cs with
    | nil => exact absurd rfl h
    | cons c cs => simp [String.length]

/-! ## The activity predicate -/

/-- C1: for a delegation with an unbonding sub-record, parameters `k`, `w`,
`Q` from successful queries, `StartHeight + k` and `H + w` in the 64-bit
range (and a covenant signature list within the range of the `uint32`
conversion), `isDelegationActive` returns a boolean without error, and that
boolean is true exactly when the five conditions hold. -/
theorem isDelegationActive_iff_five_conditions
    (bbnClient : BabylonClient) (btcDel : BTCDelegationResponse)
    (ud : BTCUndelegationResponse) (H k w Q : Nat)
    (hck : bbnClient.queryClient.BTCCheckpointParams = .ok ⟨k, w⟩)
    (hst : bbnClient.queryClient.BTCStakingParams = .ok ⟨Q⟩)
    (hud : btcDel.UndelegationResponse = some ud)
    (hk : btcDel.StartHeight + k < uint64Size)
    (hw : H + w < uint64Size)
    (hsigs : btcDel.CovenantSigs.length < uint32Size) :
    ∃ b : Bool, isDelegationActive bbnClient btcDel H = .ret (b, none) ∧
      (b = true ↔
        (ud.DelegatorUnbondingSigHex = "" ∧
          btcDel.StartHeight + k ≤ H ∧
          H + w ≤ btcDel.EndHeight ∧
          Q ≤ btcDel.CovenantSigs.length ∧
          Q ≤ ud.CovenantUnbondingSigList.length ∧
          Q ≤ ud.CovenantSlashingSigs.length)) := by
  unfold isDelegationActive
  simp only [hck, hst, hud, GetDelegatorUnbondingSigHex, addU64_of_lt hk, addU64_of_lt hw,
    toUint32_of_lt hsigs]
  by_cases h1 : ud.DelegatorUnbondingSigHex.length > 0
  · refine ⟨false, by simp [h1], ?_⟩
    have := (string_length_pos_iff _).1 h1
    simp [this]
  · have h1e : ud.DelegatorUnbondingSigHex = "" := by
      by_contra hne
      exact h1 ((string_length_pos_iff _).2 hne)
    by_cases h2 : H < btcDel.StartHeight + k ∨ H + w > btcDel.EndHeight
    · refine ⟨false, by simp [h1, h2], ?_⟩
      simp only [Bool.false_eq_true, false_iff]
      rintro ⟨-, ha, hb, -⟩
      rcases h2 with h2 | h2 <;> omega
    · by_cases h3 : btcDel.CovenantSigs.length < Q
      · refine ⟨false, by simp [h1, h2, h3], ?_⟩
        simp only [Bool.false_eq_true, false_iff]
        rintro ⟨-, -, -, hc, -⟩
        omega
      · by_cases h4 : ud.CovenantUnbondingSigList.length < Q
        · refine ⟨false, by simp [h1, h2, h3, h4], ?_⟩
          simp only [Bool.false_eq_true, false_iff]
          rintro ⟨-, -, -, -, hd, -⟩
          omega
        · by_cases h5 : ud.CovenantSlashingSigs.length < Q
          · refine ⟨false, by simp [h1, h2, h3, h4, h5], ?_⟩
            simp only [Bool.false_eq_true, false_iff]
            rintro ⟨-, -, -, -, -, he⟩
            omega
          · refine ⟨true, by simp [h1, h2, h3, h4, h5], ?_⟩
            simp only [true_iff]
            refine ⟨h1e, ?_, ?_, ?_, ?_, ?_⟩ <;> omega

theorem isDelegationActive_iff_five_conditions_witness :
    isDelegationActive scenarioClient scenarioDel 110 = .ret (true, none) ∧
    isDelegationActive scenarioClient scenarioDel 195 = .ret (true, none) ∧
    isDelegationActive scenarioClient scenarioDel 109 = .ret (false, none) ∧
    isDelegationActive scenarioClient scenarioDel 196 = .ret (false, none) ∧
    ∃ b : Bool, isDelegationActive scenarioClient scenarioDel 150 = .ret (b, none) ∧
      (b = true ↔
        (("" : String) = "" ∧ 100 + 10 ≤ 150 ∧ 150 + 5 ≤ 200 ∧
          2 ≤ ["c1", "c2"].length ∧ 2 ≤ ["u1", "u2"].length ∧ 2 ≤ ["s1", "s2"].length)) :=
  ⟨by decide, by decide, by decide, by decide,
    isDelegationActive_iff_five_conditions scenarioClient scenarioDel
      ⟨"", ["u1", "u2"], ["s1", "s2"]⟩ 150 10 5 2 rfl rfl rfl (by decide) (by decide)
      (by decide)⟩

/-- Scenario of the specification: for heights with `H + 5` in the 64-bit
range, the scenario delegation is active exactly on the heights 110 to 195. -/
theorem scenario_active_range (H : Nat) (hw : H + 5 < uint64Size) :
    isDelegationActive scenarioClient scenarioDel H = .ret (true, none) ↔ 110 ≤ H ∧ H ≤ 195 := by
  have e1 : addU64 100 10 = 110 := by decide
  unfold isDelegationActive
  simp only [scenarioClient, gatewayOf, scenarioDel, GetDelegatorUnbondingSigHex, e1]
  rw [addU64_of_lt hw]
  by_cases h2 : H < 110 ∨ H + 5 > 200
  · simp [h2]
    rcases h2 with h2 | h2 <;> omega
  · have h3 : 110 ≤ H ∧ H ≤ 195 := by omega
    simp [h2, toUint32, uint32Size, h3]

/-- Scenario of the specification: with an unbonding signature present the
delegation is inactive at every height. -/
theorem scenario_unbonded_inactive (H : Nat) :
    isDelegationActive scenarioClient
      { scenarioDel with UndelegationResponse := some ⟨"ab", ["u1", "u2"], ["s1", "s2"]⟩ } H
      = .ret (false, none) := by
  unfold isDelegationActive
  simp [scenarioClient, gatewayOf, GetDelegatorUnbondingSigHex]
  intro h
  exact absurd h (by decide)

/-! ## Pagination -/

/-- When the page fetched before the loop carries a continuation cursor and
its delegations are summed without error, the loop of `QueryFpPower` is never
left, whatever the fuel. -/
theorem fpPowerLoop_cursor_never_returns (bbnClient : BabylonClient) (resp : DelegationsPage)
    (H : Nat) (key : List Nat) (hp : resp.Pagination = some ⟨some key⟩)
    (hnext : ∀ total, ∃ total1,
      powerPageLoop bbnClient H resp.BtcDelegatorDelegations total = .next total1) :
    ∀ fuel pagination total, fpPowerLoop bbnClient resp H fuel pagination total = none := by
  intro fuel
  induction fuel with
  | zero => intro pagination total; rfl
  | succ n ih =>
    intro pagination total
    obtain ⟨t1, ht1⟩ := hnext total
    simp [fpPowerLoop, ht1, hp, ih]

/-- The same for the loop of `QueryFpEarliestActiveDelBtcHeight`. -/
theorem fpEarliestLoop_cursor_never_returns (resp : DelegationsPage) (T k Q : Nat)
    (key : List Nat) (hp : resp.Pagination = some ⟨some key⟩) :
    ∀ fuel pagination earliest, fpEarliestLoop resp T k Q fuel pagination earliest = none := by
  intro fuel
  induction fuel with
  | zero => intro pagination earliest; rfl
  | succ n ih =>
    intro pagination earliest
    simp [fpEarliestLoop, hp, ih]

/-- C2, evaluated on a provider whose delegations are served in two pages:
`QueryFpPower` returns for no amount of fuel, while following the cursor as
the specification words it gives 80 after two requests, the value
`QueryFpPower` returns when the same delegations come as one page. -/
theorem QueryFpPower_two_pages_never_returns :
    (∀ fuel, QueryFpPower twoPageClient "fp" 150 fuel = none) ∧
    specActiveDelegationPower twoPageClient "fp" 150 2 = some (.ret (80, none)) ∧
    QueryFpPower onePageClient "fp" 150 1 = some (.ret (80, none)) := by
  refine ⟨?_, by decide, by decide⟩
  intro fuel
  have hact : isDelegationActive twoPageClient scenarioDel 150 = .ret (true, none) := by decide
  have hresp : twoPageClient.queryClient.FinalityProviderDelegations "fp"
      { Key := none, Limit := 0 } = .ok pageOne := rfl
  unfold QueryFpPower
  simp only [hresp]
  apply fpPowerLoop_cursor_never_returns twoPageClient pageOne 150 [1] rfl
  intro total
  refine ⟨addU64 total 50, ?_⟩
  simp only [pageOne, powerPageLoop, powerDelsLoop, hact]
  simp [scenarioDel]

/-- C3, evaluated on the same provider: `QueryEarliestActiveDelBtcHeight`
returns for no amount of fuel; with the same delegations on one page it
returns 100, the first active height of the delegation of the second page. -/
theorem QueryEarliestActiveDelBtcHeight_two_pages_never_returns :
    (∀ fuel, QueryEarliestActiveDelBtcHeight twoPageClient ["fp"] fuel = none) ∧
    QueryEarliestActiveDelBtcHeight onePageClient ["fp"] 1 = some (100, none) := by
  refine ⟨?_, by decide⟩
  intro fuel
  have hresp : twoPageClient.queryClient.FinalityProviderDelegations "fp"
      { Key := none, Limit := 100 } = .ok pageOne := rfl
  have hloop : QueryFpEarliestActiveDelBtcHeight twoPageClient "fp" fuel = none := by
    unfold QueryFpEarliestActiveDelBtcHeight
    simp only [hresp]
    exact fpEarliestLoop_cursor_never_returns pageOne 150 10 2 [1] rfl fuel _ _
  simp [QueryEarliestActiveDelBtcHeight, earliestAllLoop, hloop]

/-! ## Power of several providers -/

theorem lookup_filter_ne (m : PowerMap) (k k1 : String) (h : k1 ≠ k) :
    List.lookup k1 (m.filter (fun e => e.1 != k)) = List.lookup k1 m := by
  induction m with
  | nil => rfl
  | cons e rest ih =>
    rcases e with ⟨a, v⟩
    by_cases ha : a = k
    · subst ha
      have hk : (k1 == a) = false := by simpa using h
      simp [List.filter, List.lookup, hk, ih]
    · have hne : (a != k) = true := by simpa using ha
      simp only [List.filter, hne, List.lookup, ih]

theorem lookup_set (m : PowerMap) (k k1 : String) (v : Nat) :
    List.lookup k1 (m.set k v) = if k1 = k then some v else List.lookup k1 m := by
  unfold PowerMap.set
  by_cases h : k1 = k
  · subst h
    simp
  · have hk : (k1 == k) = false := by simpa using h
    simp [List.lookup, hk, h, lookup_filter_ne m k k1 h]

theorem multiFpPowerLoop_ok (bbnClient : BabylonClient) (H fuel : Nat) :
    ∀ (fps : List String) (m : PowerMap),
      (∀ fp ∈ fps, ∃ p, QueryFpPower bbnClient fp H fuel = some (.ret (p, none))) →
      ∃ m1, multiFpPowerLoop bbnClient H fuel fps m = some (.ret (some m1, none)) ∧
        ∀ fp p, List.lookup fp m1 = some p ↔
          ((fp ∈ fps ∧ QueryFpPower bbnClient fp H fuel = some (.ret (p, none))) ∨
            (fp ∉ fps ∧ List.lookup fp m = some p)) := by
  intro fps
  induction fps with
  | nil =>
    intro m _
    exact ⟨m, rfl, by simp⟩
  | cons a rest ih =>
    intro m hall
    obtain ⟨pa, hpa⟩ := hall a (List.mem_cons_self _ _)
    obtain ⟨m1, hm1, hlook⟩ := ih (m.set a pa) (fun fp hfp => hall fp (List.mem_cons_of_mem _ hfp))
    refine ⟨m1, by simp [multiFpPowerLoop, hpa, hm1], ?_⟩
    intro fp p
    rw [hlook fp p, lookup_set]
    by_cases hr : fp ∈ rest
    · simp [hr]
    · by_cases hfa : fp = a
      · subst hfa
        simp [hr, hpa]
      · simp [hr, hfa]

theorem multiFpPowerLoop_err (bbnClient : BabylonClient) (H fuel : Nat) (fp : String)
    (post : List String) (p0 : Nat) (e : Error)
    (hfp : QueryFpPower bbnClient fp H fuel = some (.ret (p0, some e))) :
    ∀ (pre : List String) (m : PowerMap),
      (∀ q ∈ pre, ∃ p, QueryFpPower bbnClient q H fuel = some (.ret (p, none))) →
      multiFpPowerLoop bbnClient H fuel (pre ++ fp :: post) m = some (.ret (none, some e)) := by
  intro pre
  induction pre with
  | nil =>
    intro m _
    simp [multiFpPowerLoop, hfp]
  | cons a rest ih =>
    intro m hall
    obtain ⟨pa, hpa⟩ := hall a (List.mem_cons_self _ _)
    simp only [List.cons_append, multiFpPowerLoop, hpa]
    exact ih _ (fun q hq => hall q (List.mem_cons_of_mem _ hq))

/-- C4: `QueryMultiFpPower` is all-or-nothing. If `QueryFpPower` succeeds for
every listed provider, it returns without error a map whose keys are exactly
the listed providers, each with the result of `QueryFpPower` for it; for the
empty list it returns the empty map without error; if every provider ahead
of some listed provider succeeds and that provider fails with error `e`, it
returns the nil map together with `e`. -/
theorem QueryMultiFpPower_all_or_nothing (bbnClient : BabylonClient) (fps : List String)
    (H fuel : Nat) :
    ((∀ fp ∈ fps, ∃ p, QueryFpPower bbnClient fp H fuel = some (.ret (p, none))) →
      ∃ m, QueryMultiFpPower bbnClient fps H fuel = some (.ret (some m, none)) ∧
        ∀ fp p, List.lookup fp m = some p ↔
          (fp ∈ fps ∧ QueryFpPower bbnClient fp H fuel = some (.ret (p, none)))) ∧
    QueryMultiFpPower bbnClient [] H fuel = some (.ret (some [], none)) ∧
    (∀ pre fp post p0 e, fps = pre ++ fp :: post →
      (∀ q ∈ pre, ∃ p, QueryFpPower bbnClient q H fuel = some (.ret (p, none))) →
      QueryFpPower bbnClient fp H fuel = some (.ret (p0, some e)) →
      QueryMultiFpPower bbnClient fps H fuel = some (.ret (none, some e))) := by
  refine ⟨?_, rfl, ?_⟩
  · intro hall
    obtain ⟨m, hm, hlook⟩ := multiFpPowerLoop_ok bbnClient H fuel fps [] hall
    refine ⟨m, hm, ?_⟩
    intro fp p
    rw [hlook fp p]
    simp
  · intro pre fp post p0 e hsplit hpre hfp
    subst hsplit
    exact multiFpPowerLoop_err bbnClient H fuel fp post p0 e hfp pre [] hpre

theorem QueryMultiFpPower_all_or_nothing_witness :
    QueryMultiFpPower mixedClient ["a", "b"] 150 1
      = some (.ret (some [("b", 30), ("a", 50)], none)) ∧
    (∃ m, QueryMultiFpPower mixedClient ["a", "b"] 150 1 = some (.ret (some m, none)) ∧
      ∀ fp p, List.lookup fp m = some p ↔
        (fp ∈ ["a", "b"] ∧ QueryFpPower mixedClient fp 150 1 = some (.ret (p, none)))) ∧
    QueryMultiFpPower mixedClient ["a", "bad", "b"] 150 1
      = some (.ret (none, some "unavailable")) :=
  ⟨by decide,
    (QueryMultiFpPower_all_or_nothing mixedClient ["a", "b"] 150 1).1 (by
      intro fp hfp
      simp only [List.mem_cons, List.mem_singleton, List.not_mem_nil, or_false] at hfp
      rcases hfp with h | h
      · exact ⟨50, by subst h; decide⟩
      · exact ⟨30, by subst h; decide⟩),
    (QueryMultiFpPower_all_or_nothing mixedClient ["a", "bad", "b"] 150 1).2.2
      ["a"] "bad" ["b"] 0 "unavailable" rfl (by
        intro q hq
        simp only [List.mem_singleton] at hq
        exact ⟨50, by subst hq; decide⟩) (by decide)⟩

/-! ## Power and height -/

theorem isDelegationActive_eq_in_window (bbnClient : BabylonClient)
    (btcDel : BTCDelegationResponse) (H1 H2 k w : Nat)
    (hck : bbnClient.queryClient.BTCCheckpointParams = .ok ⟨k, w⟩)
    (h12 : H1 ≤ H2) (hact : btcDel.StartHeight + k ≤ H1) (hend : H2 + w ≤ btcDel.EndHeight) :
    isDelegationActive bbnClient btcDel H1 = isDelegationActive bbnClient btcDel H2 := by
  have a1 := addU64_le btcDel.StartHeight k
  have a2 := addU64_le H1 w
  have a3 := addU64_le H2 w
  have n1 : ¬ (H1 < addU64 btcDel.StartHeight k ∨ addU64 H1 w > btcDel.EndHeight) := by omega
  have n2 : ¬ (H2 < addU64 btcDel.StartHeight k ∨ addU64 H2 w > btcDel.EndHeight) := by omega
  unfold isDelegationActive
  simp only [hck, n1, n2]

/-- Without wrap of `H2 + w`: a boolean that `isDelegationActive` returns at
`H1`, at or past `StartHeight + k`, is returned again at a later `H2`,
provided a delegation active at `H1` has `H2 + w <= EndHeight`. -/
theorem isDelegationActive_later (bbnClient : BabylonClient)
    (btcDel : BTCDelegationResponse) (H1 H2 k w : Nat)
    (hck : bbnClient.queryClient.BTCCheckpointParams = .ok ⟨k, w⟩)
    (h12 : H1 ≤ H2) (hact : btcDel.StartHeight + k ≤ H1) (hw : H2 + w < uint64Size)
    (hend : isDelegationActive bbnClient btcDel H1 = .ret (true, none) →
      H2 + w ≤ btcDel.EndHeight) :
    ∀ b : Bool, isDelegationActive bbnClient btcDel H1 = .ret (b, none) →
      isDelegationActive bbnClient btcDel H2 = .ret (b, none) := by
  intro b hb
  cases b with
  | true =>
    rw [← isDelegationActive_eq_in_window bbnClient btcDel H1 H2 k w hck h12 hact (hend hb)]
    exact hb
  | false =>
    have a1 := addU64_le btcDel.StartHeight k
    have a2 := addU64_le H1 w
    have a3 : addU64 H2 w = H2 + w := addU64_of_lt hw
    unfold isDelegationActive at hb ⊢
    simp only [hck] at hb ⊢
    cases hs : bbnClient.queryClient.BTCStakingParams with
    | error e => simp [hs] at hb
    | ok sp =>
      simp only [hs] at hb ⊢
      by_cases h1 : (GetDelegatorUnbondingSigHex btcDel.UndelegationResponse).length > 0
      · simp [h1]
      · by_cases hh2 : H2 < addU64 btcDel.StartHeight k ∨ addU64 H2 w > btcDel.EndHeight
        · simp [h1, hh2]
        · have hh1 : ¬ (H1 < addU64 btcDel.StartHeight k ∨ addU64 H1 w > btcDel.EndHeight) := by
            omega
          simp only [h1, hh1, hh2, if_false] at hb ⊢
          exact hb

theorem powerDelsLoop_later (bbnClient : BabylonClient) (H1 H2 k w : Nat)
    (hck : bbnClient.queryClient.BTCCheckpointParams = .ok ⟨k, w⟩)
    (h12 : H1 ≤ H2) (hw : H2 + w < uint64Size) :
    ∀ (dels : List BTCDelegationResponse) (total t1 : Nat),
      (∀ d ∈ dels, d.StartHeight + k ≤ H1 ∧
        (isDelegationActive bbnClient d H1 = .ret (true, none) → H2 + w ≤ d.EndHeight)) →
      powerDelsLoop bbnClient H1 dels total = .next t1 →
      powerDelsLoop bbnClient H2 dels total = .next t1 := by
  intro dels
  induction dels with
  | nil => intro total t1 _ h; exact h
  | cons d rest ih =>
    intro total t1 hall h
    have hd := hall d (List.mem_cons_self _ _)
    have hrest := fun x (hx : x ∈ rest) => hall x (List.mem_cons_of_mem _ hx)
    cases hr : isDelegationActive bbnClient d H1 with
    | nilDeref => simp [powerDelsLoop, hr] at h
    | ret pr =>
      rcases pr with ⟨b, e⟩
      cases e with
      | some err => simp [powerDelsLoop, hr] at h
      | none =>
        have h2 := isDelegationActive_later bbnClient d H1 H2 k w hck h12 hd.1 hw hd.2 b hr
        simp only [powerDelsLoop, hr] at h
        simp only [powerDelsLoop, h2]
        cases b with
        | true => exact ih _ _ hrest (by simpa using h)
        | false => exact ih _ _ hrest (by simpa using h)

theorem powerPageLoop_later (bbnClient : BabylonClient) (H1 H2 k w : Nat)
    (hck : bbnClient.queryClient.BTCCheckpointParams = .ok ⟨k, w⟩)
    (h12 : H1 ≤ H2) (hw : H2 + w < uint64Size) :
    ∀ (groups : List BTCDelegatorDelegationsResponse) (total t1 : Nat),
      (∀ g ∈ groups, ∀ d ∈ g.Dels, d.StartHeight + k ≤ H1 ∧
        (isDelegationActive bbnClient d H1 = .ret (true, none) → H2 + w ≤ d.EndHeight)) →
      powerPageLoop bbnClient H1 groups total = .next t1 →
      powerPageLoop bbnClient H2 groups total = .next t1 := by
  intro groups
  induction groups with
  | nil => intro total t1 _ h; exact h
  | cons g rest ih =>
    intro total t1 hall h
    have hg := hall g (List.mem_cons_self _ _)
    have hrest := fun x (hx : x ∈ rest) => hall x (List.mem_cons_of_mem _ hx)
    cases hr : powerDelsLoop bbnClient H1 g.Dels total with
    | nilDeref => simp [powerPageLoop, hr] at h
    | ret r => simp [powerPageLoop, hr] at h
    | next acc =>
      have h2 := powerDelsLoop_later bbnClient H1 H2 k w hck h12 hw g.Dels total acc hg hr
      simp only [powerPageLoop, hr] at h
      simp only [powerPageLoop, h2]
      exact ih _ _ hrest h

theorem powerDelsLoop_ret_err (bbnClient : BabylonClient) (H : Nat) :
    ∀ (dels : List BTCDelegationResponse) (total : Nat) (r : Nat × Option Error),
      powerDelsLoop bbnClient H dels total = .ret r → r.2 ≠ none := by
  intro dels
  induction dels with
  | nil => intro total r h; simp [powerDelsLoop] at h
  | cons d rest ih =>
    intro total r h
    cases hr : isDelegationActive bbnClient d H with
    | nilDeref => simp [powerDelsLoop, hr] at h
    | ret pr =>
      rcases pr with ⟨b, e⟩
      cases e with
      | some err =>
        simp only [powerDelsLoop, hr, Flow.ret.injEq] at h
        rw [← h]
        simp
      | none =>
        simp only [powerDelsLoop, hr] at h
        cases b with
        | true => exact ih _ _ (by simpa using h)
        | false => exact ih _ _ (by simpa using h)

theorem powerPageLoop_ret_err (bbnClient : BabylonClient) (H : Nat) :
    ∀ (groups : List BTCDelegatorDelegationsResponse) (total : Nat) (r : Nat × Option Error),
      powerPageLoop bbnClient H groups total = .ret r → r.2 ≠ none := by
  intro groups
  induction groups with
  | nil => intro total r h; simp [powerPageLoop] at h
  | cons g rest ih =>
    intro total r h
    cases hr : powerDelsLoop bbnClient H g.Dels total with
    | nilDeref => simp [powerPageLoop, hr] at h
    | ret r1 =>
      simp only [powerPageLoop, hr, Flow.ret.injEq] at h
      rw [← h]
      exact powerDelsLoop_ret_err bbnClient H _ _ _ hr
    | next acc =>
      simp only [powerPageLoop, hr] at h
      exact ih _ _ h

theorem fpPowerLoop_later (bbnClient : BabylonClient) (resp : DelegationsPage)
    (H1 H2 k w p1 : Nat)
    (hck : bbnClient.queryClient.BTCCheckpointParams = .ok ⟨k, w⟩)
    (h12 : H1 ≤ H2) (hw : H2 + w < uint64Size)
    (hall : ∀ g ∈ resp.BtcDelegatorDelegations, ∀ d ∈ g.Dels, d.StartHeight + k ≤ H1 ∧
      (isDelegationActive bbnClient d H1 = .ret (true, none) → H2 + w ≤ d.EndHeight)) :
    ∀ fuel pagination total,
      fpPowerLoop bbnClient resp H1 fuel pagination total = some (.ret (p1, none)) →
      fpPowerLoop bbnClient resp H2 fuel pagination total = some (.ret (p1, none)) := by
  intro fuel
  induction fuel with
  | zero => intro pagination total h; simp [fpPowerLoop] at h
  | succ n ih =>
    intro pagination total h
    cases hr : powerPageLoop bbnClient H1 resp.BtcDelegatorDelegations total with
    | nilDeref => simp [fpPowerLoop, hr] at h
    | ret r =>
      simp only [fpPowerLoop, hr, Option.some.injEq, Call.ret.injEq] at h
      exact absurd (by rw [h]) (powerPageLoop_ret_err bbnClient H1 _ _ _ hr)
    | next t1 =>
      have h2 := powerPageLoop_later bbnClient H1 H2 k w hck h12 hw _ total t1 hall hr
      simp only [fpPowerLoop, hr] at h
      simp only [fpPowerLoop, h2]
      cases hp : resp.Pagination with
      | none => simpa [hp] using h
      | some pageRes =>
        cases hk : pageRes.NextKey with
        | none => simpa [hp, hk] using h
        | some key =>
          simp only [hp, hk] at h ⊢
          exact ih _ _ h

theorem powerDelsLoop_none_active (bbnClient : BabylonClient) (H : Nat) :
    ∀ (dels : List BTCDelegationResponse) (total t1 : Nat),
      (∀ d ∈ dels, isDelegationActive bbnClient d H ≠ .ret (true, none)) →
      powerDelsLoop bbnClient H dels total = .next t1 → t1 = total := by
  intro dels
  induction dels with
  | nil => intro total t1 _ h; simpa [powerDelsLoop] using h.symm
  | cons d rest ih =>
    intro total t1 hall h
    have hd := hall d (List.mem_cons_self _ _)
    have hrest := fun x (hx : x ∈ rest) => hall x (List.mem_cons_of_mem _ hx)
    cases hr : isDelegationActive bbnClient d H with
    | nilDeref => simp [powerDelsLoop, hr] at h
    | ret pr =>
      rcases pr with ⟨b, e⟩
      cases e with
      | some err => simp [powerDelsLoop, hr] at h
      | none =>
        cases b with
        | true => exact absurd hr hd
        | false =>
          simp only [powerDelsLoop, hr] at h
          exact ih _ _ hrest (by simpa using h)

theorem powerPageLoop_none_active (bbnClient : BabylonClient) (H : Nat) :
    ∀ (groups : List BTCDelegatorDelegationsResponse) (total t1 : Nat),
      (∀ g ∈ groups, ∀ d ∈ g.Dels, isDelegationActive bbnClient d H ≠ .ret (true, none)) →
      powerPageLoop bbnClient H groups total = .next t1 → t1 = total := by
  intro groups
  induction groups with
  | nil => intro total t1 _ h; simpa [powerPageLoop] using h.symm
  | cons g rest ih =>
    intro total t1 hall h
    have hg := hall g (List.mem_cons_self _ _)
    have hrest := fun x (hx : x ∈ rest) => hall x (List.mem_cons_of_mem _ hx)
    cases hr : powerDelsLoop bbnClient H g.Dels total with
    | nilDeref => simp [powerPageLoop, hr] at h
    | ret r => simp [powerPageLoop, hr] at h
    | next acc =>
      have hacc := powerDelsLoop_none_active bbnClient H g.Dels total acc hg hr
      simp only [powerPageLoop, hr] at h
      rw [ih _ _ hrest h, hacc]

theorem fpPowerLoop_none_active (bbnClient : BabylonClient) (resp : DelegationsPage)
    (H p : Nat)
    (hall : ∀ g ∈ resp.BtcDelegatorDelegations, ∀ d ∈ g.Dels,
      isDelegationActive bbnClient d H ≠ .ret (true, none)) :
    ∀ fuel pagination total,
      fpPowerLoop bbnClient resp H fuel pagination total = some (.ret (p, none)) →
      p = total := by
  intro fuel
  induction fuel with
  | zero => intro pagination total h; simp [fpPowerLoop] at h
  | succ n ih =>
    intro pagination total h
    cases hr : powerPageLoop bbnClient H resp.BtcDelegatorDelegations total with
    | nilDeref => simp [fpPowerLoop, hr] at h
    | ret r =>
      simp only [fpPowerLoop, hr, Option.some.injEq, Call.ret.injEq] at h
      exact absurd (by rw [h]) (powerPageLoop_ret_err bbnClient H _ _ _ hr)
    | next t1 =>
      have ht := powerPageLoop_none_active bbnClient H _ total t1 hall hr
      simp only [fpPowerLoop, hr] at h
      cases hp : resp.Pagination with
      | none =>
        simp only [hp, Option.some.injEq, Call.ret.injEq, Prod.mk.injEq, and_true] at h
        omega
      | some pageRes =>
        cases hk : pageRes.NextKey with
        | none =>
          simp only [hp, hk, Option.some.injEq, Call.ret.injEq, Prod.mk.injEq, and_true] at h
          omega
        | some key =>
          simp only [hp, hk] at h
          rw [ih _ _ h, ht]

/-- C5, on the code: the scenario delegation is past its activation height
110 at both 150 and 196, and the power of its provider falls from 50 at
height 150 to 0 at height 196, where fewer than `w = 5` blocks of timelock
remain. -/
theorem QueryFpPower_falls_when_timelock_runs_out :
    QueryFpPower scenarioClient "fp" 150 1 = some (.ret (50, none)) ∧
    QueryFpPower scenarioClient "fp" 196 1 = some (.ret (0, none)) ∧
    150 ≤ 196 ∧ scenarioDel.StartHeight + 10 ≤ 150 ∧ ¬ (50 ≤ 0) := by
  decide

/-- C5 as amended: with parameters `k`, `w` and a fixed page of delegations
(`EndHeight` a `uint64`), for heights `H1 ≤ H2` with `H1` at or past
`StartHeight + k` of every delegation and `H2 + w ≤ EndHeight` for every
delegation that is active at `H1`: a power returned by `QueryFpPower` at `H1`
is at most any power it returns at `H2`; and when `H2 + w` is in the 64-bit
range, `QueryFpPower` returns at `H2` the very power it returned at `H1`. -/
theorem QueryFpPower_mono_within_timelock (bbnClient : BabylonClient) (fpPubkeyHex : String)
    (resp : DelegationsPage) (H1 H2 k w fuel p1 : Nat)
    (hck : bbnClient.queryClient.BTCCheckpointParams = .ok ⟨k, w⟩)
    (hresp : bbnClient.queryClient.FinalityProviderDelegations fpPubkeyHex
      { Key := none, Limit := 0 } = .ok resp)
    (h12 : H1 ≤ H2)
    (hact : ∀ g ∈ resp.BtcDelegatorDelegations, ∀ d ∈ g.Dels, d.StartHeight + k ≤ H1)
    (hend : ∀ g ∈ resp.BtcDelegatorDelegations, ∀ d ∈ g.Dels,
      isDelegationActive bbnClient d H1 = .ret (true, none) → H2 + w ≤ d.EndHeight)
    (hE : ∀ g ∈ resp.BtcDelegatorDelegations, ∀ d ∈ g.Dels, d.EndHeight < uint64Size)
    (hp1 : QueryFpPower bbnClient fpPubkeyHex H1 fuel = some (.ret (p1, none))) :
    (∀ p2, QueryFpPower bbnClient fpPubkeyHex H2 fuel = some (.ret (p2, none)) → p1 ≤ p2) ∧
    (H2 + w < uint64Size →
      QueryFpPower bbnClient fpPubkeyHex H2 fuel = some (.ret (p1, none))) := by
  have hsame : H2 + w < uint64Size →
      QueryFpPower bbnClient fpPubkeyHex H2 fuel = some (.ret (p1, none)) := by
    intro hw
    unfold QueryFpPower at hp1 ⊢
    simp only [hresp] at hp1 ⊢
    exact fpPowerLoop_later bbnClient resp H1 H2 k w p1 hck h12 hw
      (fun g hg d hd => ⟨hact g hg d hd, hend g hg d hd⟩) fuel _ 0 hp1
  refine ⟨?_, hsame⟩
  intro p2 hp2
  by_cases hw : H2 + w < uint64Size
  · rw [hsame hw] at hp2
    simp only [Option.some.injEq, Call.ret.injEq, Prod.mk.injEq, and_true] at hp2
    omega
  · have hnone : ∀ g ∈ resp.BtcDelegatorDelegations, ∀ d ∈ g.Dels,
        isDelegationActive bbnClient d H1 ≠ .ret (true, none) := by
      intro g hg d hd hactive
      have h1 := hend g hg d hd hactive
      have h2 := hE g hg d hd
      omega
    unfold QueryFpPower at hp1
    simp only [hresp] at hp1
    have hzero := fpPowerLoop_none_active bbnClient resp H1 p1 hnone fuel _ 0 hp1
    omega

theorem QueryFpPower_mono_within_timelock_witness :
    QueryFpPower expiredClient "fp" 150 1 = some (.ret (80, none)) ∧
    QueryFpPower expiredClient "fp" 180 1 = some (.ret (80, none)) ∧
    isDelegationActive expiredClient expiredDel 150 = .ret (false, none) ∧
    ¬ (180 + 5 ≤ expiredDel.EndHeight) ∧
    ∀ p2, QueryFpPower expiredClient "fp" 180 1 = some (.ret (p2, none)) → 80 ≤ p2 :=
  ⟨by decide,
    (QueryFpPower_mono_within_timelock expiredClient "fp"
      ⟨[⟨[expiredDel]⟩, ⟨[scenarioDel, secondDel]⟩], none⟩ 150 180 10 5 1 80 rfl rfl
      (by decide) (by decide) (by decide) (by decide) (by decide)).2 (by decide),
    by decide, by decide,
    (QueryFpPower_mono_within_timelock expiredClient "fp"
      ⟨[⟨[expiredDel]⟩, ⟨[scenarioDel, secondDel]⟩], none⟩ 150 180 10 5 1 80 rfl rfl
      (by decide) (by decide) (by decide) (by decide) (by decide)).1⟩

/-! ## Server lifecycle -/

theorem RunUntilShutdown_server (s : Server) (env : Env) :
    (RunUntilShutdown s env).server = { s with started := addInt32 s.started 1 } := by
  rcases env with ⟨l, r, lc, dc, sh⟩
  unfold RunUntilShutdown
  by_cases hg : addInt32 s.started 1 ≠ 1
  · simp [hg]
  · cases l <;> cases r <;> cases sh <;> simp [hg, startGrpcListen]

theorem addInt32_range (x d : Int) :
    -2147483648 ≤ addInt32 x d ∧ addInt32 x d < 2147483648 := by
  unfold addInt32
  omega

theorem afterCalls_eq : ∀ (envs : List Env) (s : Server),
    -2147483648 ≤ s.started → s.started < 2147483648 →
    afterCalls envs s =
      { s with started := (s.started + envs.length + 2147483648) % 4294967296 - 2147483648 } := by
  intro envs
  induction envs with
  | nil =>
    intro s h1 h2
    have : (s.started + 2147483648) % 4294967296 - 2147483648 = s.started := by omega
    simp [afterCalls, this]
  | cons e rest ih =>
    intro s h1 h2
    have hstep : afterCalls (e :: rest) s = afterCalls rest (RunUntilShutdown s e).server := by
      simp [afterCalls]
    have hr := addInt32_range s.started 1
    rw [hstep, RunUntilShutdown_server, ih _ hr.1 hr.2]
    simp only [List.length_cons, Nat.cast_add, Nat.cast_one, addInt32]
    congr 1
    omega

/-- Below the wrap of the counter the guard holds: after `n` earlier calls
on a new server, `1 ≤ n < 2^32`, a further call returns nil and does nothing. -/
theorem RunUntilShutdown_noop_below_wrap (addr : String) (envs : List Env) (env : Env)
    (h1 : 1 ≤ envs.length) (h2 : envs.length < 4294967296) :
    (RunUntilShutdown (afterCalls envs (NewFinalityGadgetServer addr)) env).returned = some none ∧
    (RunUntilShutdown (afterCalls envs (NewFinalityGadgetServer addr)) env).trace = [] := by
  rw [afterCalls_eq envs _ (by simp [NewFinalityGadgetServer]) (by simp [NewFinalityGadgetServer])]
  have hg : addInt32 (((NewFinalityGadgetServer addr).started + (envs.length : Int) + 2147483648)
      % 4294967296 - 2147483648) 1 ≠ 1 := by
    simp only [NewFinalityGadgetServer, addInt32]
    omega
  unfold RunUntilShutdown
  simp [hg]

/-- C6, evaluated after 4294967296 earlier calls on a new server: the
`int32` counter is back at 0, so the next call passes the guard, binds a
listener, starts a gRPC server and closes the database. -/
theorem RunUntilShutdown_guard_reopens_after_wrap :
    (afterCalls (List.replicate 4294967296 quietEnv) (NewFinalityGadgetServer ":50081")).started
      = 0 ∧
    startup (RunUntilShutdown
      (afterCalls (List.replicate 4294967296 quietEnv) (NewFinalityGadgetServer ":50081"))
      quietEnv).trace = [.listen ":50081" none, .grpcNewServer, .serve] ∧
    teardown (RunUntilShutdown
      (afterCalls (List.replicate 4294967296 quietEnv) (NewFinalityGadgetServer ":50081"))
      quietEnv).trace = [.grpcStop, .lisClose none, .dbClose none] := by
  have hs : afterCalls (List.replicate 4294967296 quietEnv) (NewFinalityGadgetServer ":50081")
      = NewFinalityGadgetServer ":50081" := by
    rw [afterCalls_eq _ _ (by decide) (by decide), List.length_replicate]
    decide
  rw [hs]
  decide

/-- C7: on every call of `RunUntilShutdown` that passes the start guard and
returns, the teardown events are, in this order, the stop of the gRPC server
and the close of the listener (both absent when the listener could not be
bound), then the close of the database; the errors of the `Close` calls
change nothing, and no resource is acquired after the teardown began. -/
theorem RunUntilShutdown_teardown_order (s : Server) (env : Env) (r : Option Error)
    (hguard : addInt32 s.started 1 = 1)
    (hret : (RunUntilShutdown s env).returned = some r) :
    teardown (RunUntilShutdown s env).trace =
      (if env.listenErr.isSome then [] else [Event.grpcStop, Event.lisClose env.lisCloseErr])
        ++ [Event.dbClose env.dbCloseErr] ∧
    ∃ body, (RunUntilShutdown s env).trace = body ++
        ((if env.listenErr.isSome then [] else [Event.grpcStop, Event.lisClose env.lisCloseErr])
          ++ [.log "Closing database...", .dbClose env.dbCloseErr, .log "Database closed"]) ∧
      teardown body = [] := by
  rcases env with ⟨l, rg, lc, dc, sh⟩
  unfold RunUntilShutdown at hret ⊢
  cases l with
  | some e =>
    simp only [hguard, ne_eq, not_true_eq_false, if_false]
    exact ⟨by simp [teardown, runDeferred], [.listen s.GRPCListener (some e)],
      by simp [runDeferred], by simp [teardown]⟩
  | none =>
    cases rg with
    | some e =>
      simp only [hguard, ne_eq, not_true_eq_false, if_false]
      exact ⟨by simp [teardown, runDeferred],
        [.listen s.GRPCListener none, .grpcNewServer, .register (some e)],
        by simp [runDeferred], by simp [teardown]⟩
    | none =>
      cases sh with
      | false => simp [hguard, startGrpcListen] at hret
      | true =>
        simp only [hguard, ne_eq, not_true_eq_false, if_false, startGrpcListen]
        exact ⟨by simp [teardown, runDeferred],
          [.listen s.GRPCListener none, .grpcNewServer, .register none, .serve,
            .log "Finality gadget is active", .shutdownReceived],
          by simp [runDeferred], by simp [teardown]⟩

theorem RunUntilShutdown_teardown_order_witness :
    (RunUntilShutdown (NewFinalityGadgetServer ":50081") bindFailEnv).returned
      = some (some "failed to listen on :50081: address already in use") ∧
    teardown (RunUntilShutdown (NewFinalityGadgetServer ":50081") bindFailEnv).trace
      = [.dbClose (some "db busy")] ∧
    teardown (RunUntilShutdown (NewFinalityGadgetServer ":50081") registerFailEnv).trace
      = [.grpcStop, .lisClose (some "use of closed conn"), .dbClose none] ∧
    teardown (RunUntilShutdown (NewFinalityGadgetServer ":50081") closeErrEnv).trace
      = [.grpcStop, .lisClose (some "use of closed conn"), .dbClose (some "db busy")] :=
  ⟨by decide,
    (RunUntilShutdown_teardown_order (NewFinalityGadgetServer ":50081") bindFailEnv
      (some "failed to listen on :50081: address already in use") (by decide) (by decide)).1,
    (RunUntilShutdown_teardown_order (NewFinalityGadgetServer ":50081") registerFailEnv
      (some "failed to register gRPC server: duplicate service") (by decide) (by decide)).1,
    (RunUntilShutdown_teardown_order (NewFinalityGadgetServer ":50081") closeErrEnv
      none (by decide) (by decide)).1⟩

/-! ## Logger wiring -/

/-- Whatever logger the constructor is given, the client it returns has a
nil `logger` field. -/
theorem NewBabylonClient_logger_nil (defaults : BabylonConfig)
    (New : BabylonConfig → Option Logger → Except Error LibClient)
    (cfg : BBNConfig) (logger : Option Logger) (c : BabylonClient)
    (h : (NewBabylonClient defaults New cfg logger).1 = some c) : c.logger = none := by
  unfold NewBabylonClient at h
  cases hn : New ⟨cfg.BabylonRPCAddress, cfg.BabylonChainId⟩ logger with
  | error e => simp [hn] at h
  | ok lc =>
    simp only [hn, Option.some.injEq] at h
    rw [← h]

/-- C8, evaluated with a logger and a library constructor that succeeds:
the client returned by `NewBabylonClient` has a nil `logger` field, not the
logger passed in, and `QueryAllFinalityProviders` on it aborts on the nil
logger. -/
theorem NewBabylonClient_drops_logger :
    ∃ c, NewBabylonClient ⟨"", ""⟩ libNewOk ⟨"http://localhost:26657", "bbn-test"⟩
        (some gadgetLogger) = (some c, none) ∧
      c.logger = none ∧ c.logger ≠ some gadgetLogger ∧
      QueryAllFinalityProviders c "consumer" = .nilDeref :=
  ⟨_, rfl, rfl, by simp, rfl⟩

/-! ## Missing unbonding sub-record -/

/-- A delegation without unbonding sub-record that passes the height and
covenant quorum tests makes `isDelegationActive` abort. -/
theorem isDelegationActive_nil_undelegation (bbnClient : BabylonClient)
    (btcDel : BTCDelegationResponse) (H k w Q : Nat)
    (hck : bbnClient.queryClient.BTCCheckpointParams = .ok ⟨k, w⟩)
    (hst : bbnClient.queryClient.BTCStakingParams = .ok ⟨Q⟩)
    (hud : btcDel.UndelegationResponse = none)
    (hk : addU64 btcDel.StartHeight k ≤ H) (hw : addU64 H w ≤ btcDel.EndHeight)
    (hq : Q ≤ toUint32 btcDel.CovenantSigs.length) :
    isDelegationActive bbnClient btcDel H = .nilDeref := by
  have n1 : ¬ (H < addU64 btcDel.StartHeight k ∨ addU64 H w > btcDel.EndHeight) := by omega
  have n2 : ¬ (toUint32 btcDel.CovenantSigs.length < Q) := by omega
  unfold isDelegationActive
  simp [hck, hst, hud, GetDelegatorUnbondingSigHex, n1, n2]

/-- C9, evaluated on the scenario delegation without unbonding sub-record
at height 150: `isDelegationActive` aborts with a nil dereference instead of
returning a boolean, and so does `QueryFpPower` on a page that holds it. -/
theorem isDelegationActive_nil_undelegation_aborts :
    isDelegationActive scenarioClient nilUdDel 150 = .nilDeref ∧
    QueryFpPower nilUdClient "fp" 150 1 = some .nilDeref := by
  decide

/-! ## Wrap-around of the height sums -/

/-- C10, on the code: with `StartHeight = 2^64 - 1` and `k = 10` the sum wraps
to 9, so `isDelegationActive` returns true at height 50 and
`getDelFirstActiveHeight` returns 9 at tip 150, although neither height
reaches `StartHeight + k`; with `H = 2^64 - 1` and `w = 5` the sum wraps to 4
and `isDelegationActive` returns true although `H + w` exceeds `EndHeight`. -/
theorem height_tests_wrap_around :
    (isDelegationActive scenarioClient wrapDel 50 = .ret (true, none) ∧
      ¬ (wrapDel.StartHeight + 10 ≤ 50)) ∧
    (isDelegationActive scenarioClient scenarioDel 18446744073709551615 = .ret (true, none) ∧
      ¬ (18446744073709551615 + 5 ≤ scenarioDel.EndHeight)) ∧
    (getDelFirstActiveHeight wrapDel 150 10 2 = 9 ∧ (9 : Nat) ≠ MaxUint64 ∧
      ¬ (wrapDel.StartHeight + 10 ≤ 150)) := by
  decide

/-- C10 as amended: `isDelegationActive` returns true only if
`H >= (StartHeight + k) mod 2^64` and `(H + w) mod 2^64 <= EndHeight`, hence
only if `H >= StartHeight + k` when that sum is in the 64-bit range and only
if `H + w <= EndHeight` when that sum is in the 64-bit range;
`getDelFirstActiveHeight` returns a value other than `math.MaxUint64` only if
`T >= (StartHeight + k) mod 2^64`, hence only if `T >= StartHeight + k` when
that sum is in the 64-bit range. -/
theorem height_tests_sound_without_wrap (bbnClient : BabylonClient)
    (btcDel : BTCDelegationResponse) (H k w T Q : Nat) (err : Option Error)
    (hck : bbnClient.queryClient.BTCCheckpointParams = .ok ⟨k, w⟩) :
    (isDelegationActive bbnClient btcDel H = .ret (true, err) →
      addU64 btcDel.StartHeight k ≤ H ∧ addU64 H w ≤ btcDel.EndHeight ∧
      (btcDel.StartHeight + k < uint64Size → btcDel.StartHeight + k ≤ H) ∧
      (H + w < uint64Size → H + w ≤ btcDel.EndHeight)) ∧
    (getDelFirstActiveHeight btcDel T k Q ≠ MaxUint64 →
      addU64 btcDel.StartHeight k ≤ T ∧
      (btcDel.StartHeight + k < uint64Size → btcDel.StartHeight + k ≤ T)) := by
  constructor
  · intro hact
    have hmod : addU64 btcDel.StartHeight k ≤ H ∧ addU64 H w ≤ btcDel.EndHeight := by
      by_contra hcon
      have hfail : H < addU64 btcDel.StartHeight k ∨ addU64 H w > btcDel.EndHeight := by omega
      unfold isDelegationActive at hact
      simp only [hck] at hact
      cases hs : bbnClient.queryClient.BTCStakingParams with
      | error e => simp [hs] at hact
      | ok sp =>
        simp only [hs] at hact
        by_cases h1 : (GetDelegatorUnbondingSigHex btcDel.UndelegationResponse).length > 0
        · simp [h1] at hact
        · simp [h1, hfail] at hact
    refine ⟨hmod.1, hmod.2, ?_, ?_⟩
    · intro hlt
      rw [← addU64_of_lt hlt]
      exact hmod.1
    · intro hlt
      rw [← addU64_of_lt hlt]
      exact hmod.2
  · intro hne
    have hmod : addU64 btcDel.StartHeight k ≤ T := by
      by_contra hcon
      have hlt : T < addU64 btcDel.StartHeight k := by omega
      exact hne (by simp [getDelFirstActiveHeight, hlt])
    refine ⟨hmod, ?_⟩
    intro hlt
    rw [← addU64_of_lt hlt]
    exact hmod

theorem height_tests_sound_without_wrap_witness :
    (isDelegationActive scenarioClient scenarioDel 150 = .ret (true, none) →
      addU64 scenarioDel.StartHeight 10 ≤ 150 ∧ addU64 150 5 ≤ scenarioDel.EndHeight ∧
      (scenarioDel.StartHeight + 10 < uint64Size → scenarioDel.StartHeight + 10 ≤ 150) ∧
      (150 + 5 < uint64Size → 150 + 5 ≤ scenarioDel.EndHeight)) ∧
    (getDelFirstActiveHeight scenarioDel 150 10 2 ≠ MaxUint64 →
      addU64 scenarioDel.StartHeight 10 ≤ 150 ∧
      (scenarioDel.StartHeight + 10 < uint64Size → scenarioDel.StartHeight + 10 ≤ 150)) ∧
    isDelegationActive scenarioClient scenarioDel 150 = .ret (true, none) ∧
    getDelFirstActiveHeight scenarioDel 150 10 2 = 110 :=
  ⟨(height_tests_sound_without_wrap scenarioClient scenarioDel 150 10 5 150 2 none rfl).1,
    (height_tests_sound_without_wrap scenarioClient scenarioDel 150 10 5 150 2 none rfl).2,
    by decide, by decide⟩

/-! ## Providers whose delegations fit one page -/

theorem powerDelsLoop_sum (bbnClient : BabylonClient) (H : Nat) :
    ∀ (dels : List BTCDelegationResponse) (total : Nat),
      (∀ d ∈ dels, ∃ b, isDelegationActive bbnClient d H = .ret (b, none)) →
      total + activeSat bbnClient H dels < uint64Size →
      powerDelsLoop bbnClient H dels total = .next (total + activeSat bbnClient H dels) := by
  intro dels
  induction dels with
  | nil => intro total _ _; simp [powerDelsLoop, activeSat]
  | cons d rest ih =>
    intro total hall hfit
    obtain ⟨b, hb⟩ := hall d (List.mem_cons_self _ _)
    have hrest : ∀ x ∈ rest, ∃ b, isDelegationActive bbnClient x H = .ret (b, none) :=
      fun x hx => hall x (List.mem_cons_of_mem _ hx)
    cases b with
    | true =>
      have hsat : activeSat bbnClient H (d :: rest) = d.TotalSat + activeSat bbnClient H rest := by
        simp [activeSat, List.filter, hb]
      rw [hsat] at hfit ⊢
      have hadd : addU64 total d.TotalSat = total + d.TotalSat := addU64_of_lt (by omega)
      simp only [powerDelsLoop, hb, hadd, if_true]
      rw [ih _ hrest (by omega)]
      congr 1
      omega
    | false =>
      have hsat : activeSat bbnClient H (d :: rest) = activeSat bbnClient H rest := by
        simp [activeSat, List.filter, hb]
      rw [hsat] at hfit ⊢
      simp only [powerDelsLoop, hb, Bool.false_eq_true, if_false]
      exact ih _ hrest hfit

theorem activeSat_append (bbnClient : BabylonClient) (H : Nat)
    (xs ys : List BTCDelegationResponse) :
    activeSat bbnClient H (xs ++ ys) = activeSat bbnClient H xs + activeSat bbnClient H ys := by
  simp [activeSat]

theorem powerPageLoop_sum (bbnClient : BabylonClient) (H : Nat) :
    ∀ (groups : List BTCDelegatorDelegationsResponse) (total : Nat),
      (∀ d ∈ pageDels groups, ∃ b, isDelegationActive bbnClient d H = .ret (b, none)) →
      total + activeSat bbnClient H (pageDels groups) < uint64Size →
      powerPageLoop bbnClient H groups total
        = .next (total + activeSat bbnClient H (pageDels groups)) := by
  intro groups
  induction groups with
  | nil => intro total _ _; simp [powerPageLoop, pageDels, activeSat]
  | cons g rest ih =>
    intro total hall hfit
    simp only [pageDels, activeSat_append] at hfit ⊢
    have hg : ∀ d ∈ g.Dels, ∃ b, isDelegationActive bbnClient d H = .ret (b, none) :=
      fun d hd => hall d (by simp [pageDels, hd])
    have hrest : ∀ d ∈ pageDels rest, ∃ b, isDelegationActive bbnClient d H = .ret (b, none) :=
      fun d hd => hall d (by simp [pageDels, hd])
    simp only [powerPageLoop, powerDelsLoop_sum bbnClient H g.Dels total hg (by omega)]
    rw [ih _ hrest (by omega)]
    congr 1
    omega

/-- Single page: when the gateway answers with a page without cursor, every
delegation of the page gets a boolean from `isDelegationActive`, and the sum
of the active `TotalSat` fits 64 bits, `QueryFpPower` returns that sum after
the one request, for every positive fuel. -/
theorem QueryFpPower_single_page (bbnClient : BabylonClient) (fpPubkeyHex : String)
    (resp : DelegationsPage) (H fuel : Nat)
    (hresp : bbnClient.queryClient.FinalityProviderDelegations fpPubkeyHex
      { Key := none, Limit := 0 } = .ok resp)
    (hno : noCursor resp)
    (hall : ∀ d ∈ pageDels resp.BtcDelegatorDelegations,
      ∃ b, isDelegationActive bbnClient d H = .ret (b, none))
    (hfit : activeSat bbnClient H (pageDels resp.BtcDelegatorDelegations) < uint64Size) :
    QueryFpPower bbnClient fpPubkeyHex H (fuel + 1)
      = some (.ret (activeSat bbnClient H (pageDels resp.BtcDelegatorDelegations), none)) := by
  unfold QueryFpPower
  simp only [hresp, fpPowerLoop]
  rw [powerPageLoop_sum bbnClient H _ 0 hall (by omega)]
  rcases hno with h | h <;> simp [h]

theorem foldl_min_le (hs : List Nat) : ∀ a : Nat, hs.foldl min a ≤ a := by
  induction hs with
  | nil => intro a; exact le_refl _
  | cons h t ih =>
    intro a
    exact le_trans (ih (min a h)) (Nat.min_le_left _ _)

theorem foldl_min_restart (hs : List Nat) :
    ∀ a b : Nat, a ≤ b → min a (hs.foldl min b) = hs.foldl min a := by
  induction hs with
  | nil => intro a b hab; simpa using hab
  | cons h t ih =>
    intro a b hab
    have h1 := ih (min a h) (min b h) (by omega)
    have h2 := foldl_min_le t (min b h)
    simp only [List.foldl_cons]
    rw [← h1]
    omega

theorem earliestDelsLoop_min (T k Q : Nat) :
    ∀ (dels : List BTCDelegationResponse) (e : Nat),
      earliestDelsLoop T k Q dels e = minFirstActive T k Q dels e := by
  intro dels
  induction dels with
  | nil => intro e; rfl
  | cons d rest ih =>
    intro e
    by_cases hlt : getDelFirstActiveHeight d T k Q < e
    · have hm : min e (getDelFirstActiveHeight d T k Q) = getDelFirstActiveHeight d T k Q := by
        omega
      simp [earliestDelsLoop, hlt, ih, minFirstActive, hm]
    · have hm : min e (getDelFirstActiveHeight d T k Q) = e := by omega
      simp [earliestDelsLoop, hlt, ih, minFirstActive, hm]

theorem minFirstActive_append (T k Q : Nat) (xs ys : List BTCDelegationResponse) (e : Nat) :
    minFirstActive T k Q (xs ++ ys) e = minFirstActive T k Q ys (minFirstActive T k Q xs e) := by
  simp [minFirstActive, List.foldl_append]

theorem earliestPageLoop_min (T k Q : Nat) :
    ∀ (groups : List BTCDelegatorDelegationsResponse) (e : Nat),
      earliestPageLoop T k Q groups e = minFirstActive T k Q (pageDels groups) e := by
  intro groups
  induction groups with
  | nil => intro e; rfl
  | cons g rest ih =>
    intro e
    simp only [earliestPageLoop, pageDels, minFirstActive_append, earliestDelsLoop_min, ih]

theorem QueryFpEarliest_single_page (bbnClient : BabylonClient) (fpPubkeyHex : String)
    (resp : DelegationsPage) (k w Q T fuel : Nat)
    (hck : bbnClient.queryClient.BTCCheckpointParams = .ok ⟨k, w⟩)
    (hst : bbnClient.queryClient.BTCStakingParams = .ok ⟨Q⟩)
    (htip : bbnClient.queryClient.BTCHeaderChainTip = .ok T)
    (hresp : bbnClient.queryClient.FinalityProviderDelegations fpPubkeyHex
      { Key := none, Limit := 100 } = .ok resp)
    (hno : noCursor resp) :
    QueryFpEarliestActiveDelBtcHeight bbnClient fpPubkeyHex (fuel + 1)
      = some (minFirstActive T k Q (pageDels resp.BtcDelegatorDelegations) MaxUint64, none) := by
  unfold QueryFpEarliestActiveDelBtcHeight
  simp only [hresp, hck, hst, htip, fpEarliestLoop, earliestPageLoop_min]
  rcases hno with h | h <;> simp [h]

theorem earliestAllLoop_single_pages (bbnClient : BabylonClient)
    (pageOf : String → DelegationsPage) (k w Q T fuel : Nat)
    (hck : bbnClient.queryClient.BTCCheckpointParams = .ok ⟨k, w⟩)
    (hst : bbnClient.queryClient.BTCStakingParams = .ok ⟨Q⟩)
    (htip : bbnClient.queryClient.BTCHeaderChainTip = .ok T) :
    ∀ (fps : List String) (e : Nat), e ≤ MaxUint64 →
      (∀ fp ∈ fps, bbnClient.queryClient.FinalityProviderDelegations fp
        { Key := none, Limit := 100 } = .ok (pageOf fp) ∧ noCursor (pageOf fp)) →
      earliestAllLoop bbnClient (fuel + 1) fps e
        = some (minFirstActive T k Q (providersDels pageOf fps) e, none) := by
  intro fps
  induction fps with
  | nil => intro e _ _; rfl
  | cons fp rest ih =>
    intro e he hall
    obtain ⟨hresp, hno⟩ := hall fp (List.mem_cons_self _ _)
    have hrest := fun x (hx : x ∈ rest) => hall x (List.mem_cons_of_mem _ hx)
    have hone := QueryFpEarliest_single_page bbnClient fp (pageOf fp) k w Q T fuel
      hck hst htip hresp hno
    have hmin := foldl_min_restart
      ((pageDels (pageOf fp).BtcDelegatorDelegations).map
        fun d => getDelFirstActiveHeight d T k Q) e MaxUint64 he
    have hle := foldl_min_le
      ((pageDels (pageOf fp).BtcDelegatorDelegations).map
        fun d => getDelFirstActiveHeight d T k Q) e
    simp only [earliestAllLoop, hone, providersDels, minFirstActive_append]
    by_cases hlt : minFirstActive T k Q (pageDels (pageOf fp).BtcDelegatorDelegations) MaxUint64 < e
    · have heq : minFirstActive T k Q (pageDels (pageOf fp).BtcDelegatorDelegations) e
          = minFirstActive T k Q (pageDels (pageOf fp).BtcDelegatorDelegations) MaxUint64 := by
        unfold minFirstActive at hlt ⊢
        omega
      rw [if_pos hlt, heq]
      exact ih _ (by unfold minFirstActive; exact foldl_min_le _ _) hrest
    · have heq : minFirstActive T k Q (pageDels (pageOf fp).BtcDelegatorDelegations) e = e := by
        unfold minFirstActive at hlt ⊢
        omega
      rw [if_neg hlt, heq]
      exact ih _ he hrest

/-- Single pages: when all queries succeed and the gateway answers every
listed provider with a page without cursor, `QueryEarliestActiveDelBtcHeight`
returns, for every positive fuel, the minimum of `getDelFirstActiveHeight`
over the delegations of all listed providers, and `math.MaxUint64` when
there is none. -/
theorem QueryEarliestActiveDelBtcHeight_single_pages (bbnClient : BabylonClient)
    (pageOf : String → DelegationsPage) (fps : List String) (k w Q T fuel : Nat)
    (hck : bbnClient.queryClient.BTCCheckpointParams = .ok ⟨k, w⟩)
    (hst : bbnClient.queryClient.BTCStakingParams = .ok ⟨Q⟩)
    (htip : bbnClient.queryClient.BTCHeaderChainTip = .ok T)
    (hall : ∀ fp ∈ fps, bbnClient.queryClient.FinalityProviderDelegations fp
      { Key := none, Limit := 100 } = .ok (pageOf fp) ∧ noCursor (pageOf fp)) :
    QueryEarliestActiveDelBtcHeight bbnClient fps (fuel + 1)
      = some (minFirstActive T k Q (providersDels pageOf fps) MaxUint64, none) :=
  earliestAllLoop_single_pages bbnClient pageOf k w Q T fuel hck hst htip fps MaxUint64
    (le_refl _) hall

end FinalityGadget
